import Mathlib

/-!
Verification of the ADIS16470 RoboRIO driver (ADIS16470_IMU.cpp) against its
natural-language specification.  The driver's pure logic is shallowly
embedded: byte/word manipulation over the SPI bus is modelled with `Nat`/`Int`
arithmetic (machine-integer wrapping made explicit with `% 2^w`), and the
double-precision filter/integration arithmetic is modelled over `ℝ`.
-/

namespace ADIS16470

/-! ### Machine-integer helpers -/

/-- Signed reinterpretation of the low `bits` bits of a natural number, as a C
cast to a signed integer of width `bits` does. -/
def sint (bits v : ℕ) : ℤ :=
  if v % 2 ^ bits < 2 ^ (bits - 1) then (v % 2 ^ bits : ℤ)
  else (v % 2 ^ bits : ℤ) - 2 ^ bits

/-- Embedding of `ToInt` (lines 26-28): big-endian join of four `uint32`
buffer words into a signed 32-bit integer.  Each C shift of a `uint32` wraps
modulo `2^32`, and the final cast to `int32_t` is `sint 32`. -/
def ToInt (b0 b1 b2 b3 : ℕ) : ℤ :=
  sint 32 ((((b0 % 2 ^ 32) <<< 24) % 2 ^ 32) |||
           (((b1 % 2 ^ 32) <<< 16) % 2 ^ 32) |||
           (((b2 % 2 ^ 32) <<< 8) % 2 ^ 32) |||
           (b3 % 2 ^ 32))

/-- Embedding of `BuffToShort` (lines 34-36): the C expression
`((int16_t)(buf[0]) << 8) | buf[1]` over `uint32` buffer words.  The
intermediate `int` is converted to `uint32` for the bitwise or (C usual
arithmetic conversions) and the result is truncated back to `int16_t`. -/
def BuffToShort (b0 b1 : ℕ) : ℤ :=
  sint 16 ((((sint 16 b0 * 256) % (2 ^ 32 : ℤ)).toNat) ||| (b1 % 2 ^ 32))

/-- Embedding of `ToUShort` (lines 38-40): big-endian join of two `uint8`
bytes into an unsigned 16-bit value. -/
def ToUShort (b0 b1 : ℕ) : ℕ :=
  ((b0 % 256) <<< 8) ||| (b1 % 256)

/-- Big-endian join of a shifted block with a low block whose width is `n`
bits: when the low block fits under the shift, bitwise or is addition. -/
theorem shiftLeft_lor_eq_add (n a b : ℕ) (hb : b < 2 ^ n) :
    (a <<< n) ||| b = a * 2 ^ n + b := by
  apply Nat.eq_of_testBit_eq
  intro i
  rw [Nat.testBit_lor, Nat.testBit_shiftLeft, Nat.mul_comm,
    Nat.testBit_mul_pow_two_add a hb i]
  by_cases h : i < n
  · simp [h, Nat.not_le.mpr h]
  · have hge : n ≤ i := Nat.le_of_not_lt h
    have hb' : b < 2 ^ i := lt_of_lt_of_le hb (Nat.pow_le_pow_right (by norm_num) hge)
    simp [h, hge, Nat.testBit_lt_two_pow hb']

/-! ### C1: buffer drain / frame alignment (lines 349-352, 367) -/

/-- Frame length in buffer words: 18 data words + timestamp (line 332). -/
def dataset_len : ℕ := 19

/-- Embedding of line 350: word count of the incomplete trailing frame. -/
def data_remainder (N : ℕ) : ℕ := N % dataset_len

/-- Embedding of line 351: number of words drained this iteration (complete
frames only). -/
def data_to_read (N : ℕ) : ℕ := N - data_remainder N

/-- Start indices visited by the decode loop of line 367:
`for (int i = 0; i < data_to_read; i += dataset_len)`. -/
def loopStarts (i d : ℕ) : List ℕ :=
  if _h : i < d then i :: loopStarts (i + dataset_len) d else []
termination_by d - i
decreasing_by simp only [dataset_len]; omega

/-- Embedding of the drain (lines 349-352): from a transport buffer holding
`buf`, one iteration reads the frame-aligned prefix and leaves the rest
buffered. -/
def acquireDrain (buf : List ℕ) : List ℕ × List ℕ :=
  (buf.take (data_to_read buf.length), buf.drop (data_to_read buf.length))

theorem loopStarts_length (k : ℕ) :
    ∀ i, (loopStarts i (i + dataset_len * k)).length = k := by
  induction k with
  | zero =>
    intro i
    rw [loopStarts]
    simp
  | succ n ih =>
    intro i
    rw [loopStarts]
    have h : i < i + dataset_len * (n + 1) := by
      simp only [dataset_len]; omega
    rw [dif_pos h]
    have harith : i + dataset_len * (n + 1) = (i + dataset_len) + dataset_len * n := by
      ring
    simp only [List.length_cons, harith, ih (i + dataset_len)]

theorem loopStarts_mem_bound (k : ℕ) :
    ∀ i j, j ∈ loopStarts i (i + dataset_len * k) →
      j + dataset_len ≤ i + dataset_len * k := by
  induction k with
  | zero =>
    intro i j hj
    rw [loopStarts] at hj
    simp at hj
  | succ n ih =>
    intro i j hj
    rw [loopStarts] at hj
    have h : i < i + dataset_len * (n + 1) := by
      simp only [dataset_len]; omega
    rw [dif_pos h] at hj
    have harith : i + dataset_len * (n + 1) = (i + dataset_len) + dataset_len * n := by
      ring
    rcases List.mem_cons.mp hj with hj | hj
    · subst hj
      simp only [dataset_len]; omega
    · rw [harith] at hj ⊢
      exact ih (i + dataset_len) j hj

/-- C1: one acquisition iteration drains `data_to_read = N - N % 19` words,
decodes exactly `⌊N/19⌋` complete frames, leaves the remaining `N % 19` words
buffered for the next poll, and no decoded frame extends past the drained
region (no partial frame is decoded). -/
theorem claim_C1 (buf : List ℕ) :
    data_to_read buf.length = buf.length - buf.length % 19 ∧
    (acquireDrain buf).1.length = 19 * (buf.length / 19) ∧
    (acquireDrain buf).2.length = buf.length % 19 ∧
    (loopStarts 0 (data_to_read buf.length)).length = buf.length / 19 ∧
    (∀ i ∈ loopStarts 0 (data_to_read buf.length),
      i + 19 ≤ data_to_read buf.length) := by
  have hd : data_to_read buf.length = dataset_len * (buf.length / dataset_len) := by
    simp only [data_to_read, data_remainder, dataset_len]
    omega
  refine ⟨?_, ?_, ?_, ?_, ?_⟩
  · simp only [data_to_read, data_remainder, dataset_len]
  · simp only [acquireDrain, List.length_take, hd, dataset_len]
    omega
  · simp only [acquireDrain, List.length_drop, data_to_read, data_remainder, dataset_len]
    omega
  · rw [hd]
    have := loopStarts_length (buf.length / dataset_len) 0
    simpa [dataset_len] using this
  · intro i hi
    rw [hd] at hi ⊢
    have := loopStarts_mem_bound (buf.length / dataset_len) 0 i
    simp only [Nat.zero_add] at this
    have hb := this (by simpa using hi)
    simpa [dataset_len] using hb

/-- Witness for C1 at a concrete 40-word buffer: the loop visits start index
19 and the frame at 19 fits inside the 38 drained words. -/
theorem claim_C1_witness :
    (19 ∈ loopStarts 0 (data_to_read (List.replicate 40 0).length)) ∧
    19 + 19 ≤ data_to_read (List.replicate 40 0).length := by
  have hmem : 19 ∈ loopStarts 0 (data_to_read (List.replicate 40 0).length) := by
    rw [show data_to_read (List.replicate 40 (0 : ℕ)).length = 38 from rfl]
    rw [loopStarts]
    norm_num [dataset_len]
    rw [loopStarts]
    norm_num
  exact ⟨hmem, (claim_C1 (List.replicate 40 0)).2.2.2.2 19 hmem⟩

/-! ### Complementary-filter helper functions (lines 448-485) -/

/-- Embedding of `FormatFastConverge` (lines 448-456). -/
noncomputable def FormatFastConverge (compAngle accAngle : ℝ) : ℝ :=
  if compAngle > accAngle + Real.pi then compAngle - 2 * Real.pi
  else if accAngle > compAngle + Real.pi then compAngle + 2 * Real.pi
  else compAngle

/-- Termination measure of the first while loop of `FormatRange0to2PI`:
subtracting a full turn decrements the floor of the turn count. -/
theorem subMeasure (x : ℝ) (h : 2 * Real.pi ≤ x) :
    (⌊(x - 2 * Real.pi) / (2 * Real.pi)⌋).toNat < (⌊x / (2 * Real.pi)⌋).toNat := by
  have hpi := Real.pi_pos
  have h2 : (0 : ℝ) < 2 * Real.pi := by linarith
  have e : (x - 2 * Real.pi) / (2 * Real.pi) = x / (2 * Real.pi) - 1 := by
    field_simp
  have e2 : ⌊x / (2 * Real.pi) - 1⌋ = ⌊x / (2 * Real.pi)⌋ - 1 :=
    Int.floor_sub_one _
  have hge : 1 ≤ ⌊x / (2 * Real.pi)⌋ := by
    apply Int.le_floor.mpr
    rw [Int.cast_one]
    exact (one_le_div h2).mpr h
  rw [e, e2]
  omega

/-- Termination measure of the second while loop of `FormatRange0to2PI`:
adding a full turn decrements the ceiling of the negative turn count. -/
theorem addMeasure (x : ℝ) (h : x < 0) :
    (⌈-((x + 2 * Real.pi) / (2 * Real.pi))⌉).toNat < (⌈-(x / (2 * Real.pi))⌉).toNat := by
  have hpi := Real.pi_pos
  have h2 : (0 : ℝ) < 2 * Real.pi := by linarith
  have e : -((x + 2 * Real.pi) / (2 * Real.pi)) = -(x / (2 * Real.pi)) - 1 := by
    rw [add_div, div_self (ne_of_gt h2)]
    ring
  have e2 : ⌈-(x / (2 * Real.pi)) - 1⌉ = ⌈-(x / (2 * Real.pi))⌉ - 1 :=
    Int.ceil_sub_one _
  have hge : 1 ≤ ⌈-(x / (2 * Real.pi))⌉ := by
    have hneg : (0 : ℝ) < -(x / (2 * Real.pi)) :=
      neg_pos.mpr (div_neg_of_neg_of_pos h h2)
    have := Int.lt_ceil.mpr (by exact_mod_cast hneg : ((0 : ℤ) : ℝ) < -(x / (2 * Real.pi)))
    omega
  rw [e, e2]
  omega

/-- First while loop of `FormatRange0to2PI` (lines 459-461):
subtract `2π` while the angle is at least `2π`. -/
noncomputable def loopSub (x : ℝ) : ℝ :=
  if h : 2 * Real.pi ≤ x then loopSub (x - 2 * Real.pi) else x
termination_by (⌊x / (2 * Real.pi)⌋).toNat
decreasing_by exact subMeasure x h

/-- Second while loop of `FormatRange0to2PI` (lines 462-464):
add `2π` while the angle is negative. -/
noncomputable def loopAdd (x : ℝ) : ℝ :=
  if h : x < 0 then loopAdd (x + 2 * Real.pi) else x
termination_by (⌈-(x / (2 * Real.pi))⌉).toNat
decreasing_by exact addMeasure x h

/-- Embedding of `FormatRange0to2PI` (lines 458-466). -/
noncomputable def FormatRange0to2PI (compAngle : ℝ) : ℝ := loopAdd (loopSub compAngle)

/-- Embedding of `FormatAccelRange` (lines 468-476). -/
noncomputable def FormatAccelRange (accelAngle accelZ : ℝ) : ℝ :=
  if accelZ < 0 then Real.pi - accelAngle
  else if accelZ > 0 ∧ accelAngle < 0 then 2 * Real.pi + accelAngle
  else accelAngle

/-- Embedding of `CompFilterProcess` (lines 478-485); the member fields
`m_dt` and `m_alpha` are passed explicitly. -/
noncomputable def CompFilterProcess (compAngle accelAngle omega dt alpha : ℝ) : ℝ :=
  FormatRange0to2PI (alpha * (FormatFastConverge compAngle accelAngle + omega * dt) +
    (1 - alpha) * accelAngle)

theorem loopSub_lt (x : ℝ) : loopSub x < 2 * Real.pi := by
  induction x using loopSub.induct
  next x h ih =>
    rw [loopSub, dif_pos h]
    exact ih
  next x h =>
    rw [loopSub, dif_neg h]
    exact lt_of_not_le h

theorem loopSub_id (x : ℝ) (h : x < 2 * Real.pi) : loopSub x = x := by
  rw [loopSub, dif_neg (not_le.mpr h)]

theorem loopAdd_nonneg (x : ℝ) : 0 ≤ loopAdd x := by
  induction x using loopAdd.induct
  next x h ih =>
    rw [loopAdd, dif_pos h]
    exact ih
  next x h =>
    rw [loopAdd, dif_neg h]
    exact le_of_not_lt h

theorem loopAdd_lt : ∀ x : ℝ, x < 2 * Real.pi → loopAdd x < 2 * Real.pi := by
  intro x
  induction x using loopAdd.induct
  next x h ih =>
    intro _
    rw [loopAdd, dif_pos h]
    have hpi := Real.pi_pos
    exact ih (by linarith)
  next x h =>
    intro hx
    rw [loopAdd, dif_neg h]
    exact hx

theorem loopAdd_id (x : ℝ) (h : 0 ≤ x) : loopAdd x = x := by
  rw [loopAdd, dif_neg (not_lt.mpr h)]

/-- C7: `FormatRange0to2PI` (total, hence terminating on every real input)
returns a value in `[0, 2π)` and is idempotent. -/
theorem claim_C7 (x : ℝ) :
    (0 ≤ FormatRange0to2PI x ∧ FormatRange0to2PI x < 2 * Real.pi) ∧
    FormatRange0to2PI (FormatRange0to2PI x) = FormatRange0to2PI x := by
  have h1 : 0 ≤ loopAdd (loopSub x) := loopAdd_nonneg _
  have h2 : loopAdd (loopSub x) < 2 * Real.pi := loopAdd_lt _ (loopSub_lt x)
  refine ⟨⟨h1, h2⟩, ?_⟩
  show loopAdd (loopSub (loopAdd (loopSub x))) = loopAdd (loopSub x)
  rw [loopSub_id _ h2, loopAdd_id _ h1]

/-- C6 fails as stated: with the running angle 10 and the accel angle 0, a
single `-2π` shift still leaves the result more than `π` away from the accel
angle. -/
theorem claim_C6_counterexample :
    ¬ (|FormatFastConverge 10 0 - 0| < Real.pi) := by
  have hpi1 : Real.pi < 3.15 := Real.pi_lt_d2
  have hpi0 := Real.pi_pos
  have hb : FormatFastConverge 10 0 = 10 - 2 * Real.pi := by
    simp only [FormatFastConverge]
    rw [if_pos (by linarith : (10 : ℝ) > 0 + Real.pi)]
  rw [hb, sub_zero, abs_of_pos (by linarith : (0 : ℝ) < 10 - 2 * Real.pi)]
  push_neg
  linarith

/-- C6, amended: `FormatFastConverge` changes its first argument by exactly
one of `{-2π, 0, +2π}`, and whenever the two input angles are within `3π` of
each other the corrected result is within `π` of the accel angle. -/
theorem claim_C6 (c a : ℝ) :
    (FormatFastConverge c a - c = -(2 * Real.pi) ∨
      FormatFastConverge c a - c = 0 ∨
      FormatFastConverge c a - c = 2 * Real.pi) ∧
    (|c - a| < 3 * Real.pi → |FormatFastConverge c a - a| ≤ Real.pi) := by
  have hpi := Real.pi_pos
  unfold FormatFastConverge
  split_ifs with h1 h2
  · refine ⟨Or.inl (by ring), ?_⟩
    intro hd
    rw [abs_lt] at hd
    rw [abs_le]
    constructor <;> linarith [hd.1, hd.2]
  · refine ⟨Or.inr (Or.inr (by ring)), ?_⟩
    intro hd
    rw [abs_lt] at hd
    rw [abs_le]
    constructor <;> linarith [hd.1, hd.2]
  · push_neg at h1 h2
    refine ⟨Or.inr (Or.inl (by ring)), ?_⟩
    intro _
    rw [abs_le]
    constructor <;> linarith

/-- Witness for C6 at `compAngle = 4`, `accAngle = 0`. -/
theorem claim_C6_witness :
    |(4 : ℝ) - 0| < 3 * Real.pi ∧ |FormatFastConverge 4 0 - 0| ≤ Real.pi := by
  have hpi := Real.pi_gt_d6
  have h : |(4 : ℝ) - 0| < 3 * Real.pi := by
    rw [sub_zero, abs_of_pos (by norm_num : (0 : ℝ) < 4)]
    linarith
  exact ⟨h, (claim_C6 4 0).2 h⟩

/-! ### Acquisition loop (lines 330-445) -/

/-- Model of the C library function `atan2` (called as `atan2f` at lines
398-406): the angle of the point `(x, y)`, in `(-π, π]`. -/
noncomputable def atan2 (y x : ℝ) : ℝ :=
  if 0 < x then Real.arctan (y / x)
  else if x < 0 then
    (if 0 ≤ y then Real.arctan (y / x) + Real.pi else Real.arctan (y / x) - Real.pi)
  else
    (if 0 < y then Real.pi / 2 else if y < 0 then -(Real.pi / 2) else 0)

/-- Modelled from the spec: the degree-to-radian conversion constant `π/180`
declared in the header file, which is not part of the sources. -/
noncomputable def deg_to_rad : ℝ := Real.pi / 180

/-- Modelled from the spec: the radian-to-degree conversion constant `180/π`
declared in the header file, which is not part of the sources. -/
noncomputable def rad_to_deg : ℝ := 180 / Real.pi

/-- Wrapping subtraction of two `uint32` hardware timestamps (the C
expression `buffer[i] - previous_timestamp` at lines 369 and 371). -/
def tsDiff (ts prev : ℕ) : ℕ := (ts % 2 ^ 32 + 2 ^ 32 - prev % 2 ^ 32) % 2 ^ 32

/-- Auto-SPI buffer word at index `k` (absent indices read as 0). -/
def bufWord (buf : List ℕ) (k : ℕ) : ℕ := buf.getD k 0

/-- Embedding of line 371: the scaled delta-angle of the frame at offset `i`,
given the previous frame's timestamp.  `sf` is the device scale constant
`delta_angle_sf` from the header (kept abstract). -/
noncomputable def deltaAngleOf (sf : ℝ) (buf : List ℕ) (i prev : ℕ) : ℝ :=
  ((ToInt (bufWord buf (i + 3)) (bufWord buf (i + 4)) (bufWord buf (i + 5))
      (bufWord buf (i + 6)) : ℝ) * sf) /
    (500 / (tsDiff (bufWord buf i) prev : ℝ))

/-- Embedding of line 369: elapsed time between frames in seconds. -/
noncomputable def dtOf (buf : List ℕ) (i prev : ℕ) : ℝ :=
  (tsDiff (bufWord buf i) prev : ℝ) / 1000000

/-- The mutex-guarded shared fields published by the acquisition loop
(lines 416-436). -/
structure SharedState where
  m_integ_angle : ℝ
  m_gyro_x : ℝ
  m_gyro_y : ℝ
  m_gyro_z : ℝ
  m_accel_x : ℝ
  m_accel_y : ℝ
  m_accel_z : ℝ
  m_compAngleX : ℝ
  m_compAngleY : ℝ
  m_accelAngleX : ℝ
  m_accelAngleY : ℝ

/-- Embedding of `Reset` (lines 302-305): zero the integrated angle, leave
everything else alone. -/
noncomputable def Reset (s : SharedState) : SharedState :=
  { s with m_integ_angle := 0 }

/-- Loop-local state of one `Acquire` iteration plus the shared fields. -/
structure AcqState where
  previous_timestamp : ℕ
  first_run : Bool
  accelAngleX : ℝ
  accelAngleY : ℝ
  compAngleX : ℝ
  compAngleY : ℝ
  m_dt : ℝ
  m_alpha : ℝ
  shared : SharedState

/-- Embedding of line 372/373: scaled gyro X reading (deg/s) of the frame at
offset `i`; line 373 for Y. -/
noncomputable def gyro_x_of (buf : List ℕ) (i : ℕ) : ℝ :=
  (BuffToShort (bufWord buf (i + 7)) (bufWord buf (i + 8)) : ℝ) / 10

/-- Embedding of line 373: scaled gyro Y reading (deg/s). -/
noncomputable def gyro_y_of (buf : List ℕ) (i : ℕ) : ℝ :=
  (BuffToShort (bufWord buf (i + 9)) (bufWord buf (i + 10)) : ℝ) / 10

/-- Embedding of line 374: scaled gyro Z reading (deg/s). -/
noncomputable def gyro_z_of (buf : List ℕ) (i : ℕ) : ℝ :=
  (BuffToShort (bufWord buf (i + 11)) (bufWord buf (i + 12)) : ℝ) / 10

/-- Embedding of line 375: scaled accel X reading (g). -/
noncomputable def accel_x_of (buf : List ℕ) (i : ℕ) : ℝ :=
  (BuffToShort (bufWord buf (i + 13)) (bufWord buf (i + 14)) : ℝ) / 800

/-- Embedding of line 376: scaled accel Y reading (g). -/
noncomputable def accel_y_of (buf : List ℕ) (i : ℕ) : ℝ :=
  (BuffToShort (bufWord buf (i + 15)) (bufWord buf (i + 16)) : ℝ) / 800

/-- Embedding of line 377: scaled accel Z reading (g). -/
noncomputable def accel_z_of (buf : List ℕ) (i : ℕ) : ℝ :=
  (BuffToShort (bufWord buf (i + 17)) (bufWord buf (i + 18)) : ℝ) / 800

/-- Embedding of lines 398/405: the raw accelerometer tilt angle about X
computed by `atan2` from the SI acceleration components. -/
noncomputable def rawAngleX_of (grav : ℝ) (buf : List ℕ) (i : ℕ) : ℝ :=
  atan2 (accel_x_of buf i * grav)
    (Real.sqrt (accel_y_of buf i * grav * (accel_y_of buf i * grav) +
      accel_z_of buf i * grav * (accel_z_of buf i * grav)))

/-- Embedding of lines 399/406: the raw accelerometer tilt angle about Y. -/
noncomputable def rawAngleY_of (grav : ℝ) (buf : List ℕ) (i : ℕ) : ℝ :=
  atan2 (accel_y_of buf i * grav)
    (Real.sqrt (accel_x_of buf i * grav * (accel_x_of buf i * grav) +
      accel_z_of buf i * grav * (accel_z_of buf i * grav)))

/-- Embedding of the per-frame body of `Acquire` (lines 368-442): decode,
scale, integrate, filter and publish one frame starting at buffer offset `i`.
`sf`, `tau` and `grav` are the header constants `delta_angle_sf`, `m_tau`
and `grav` (kept abstract). -/
noncomputable def stepFrame (sf tau grav : ℝ) (buf : List ℕ) (i : ℕ)
    (st : AcqState) : AcqState :=
  let ts := bufWord buf i
  let m_dt := dtOf buf i st.previous_timestamp
  let delta_angle := deltaAngleOf sf buf i st.previous_timestamp
  let gyro_x := gyro_x_of buf i
  let gyro_y := gyro_y_of buf i
  let gyro_z := gyro_z_of buf i
  let accel_x := accel_x_of buf i
  let accel_y := accel_y_of buf i
  let accel_z := accel_z_of buf i
  let gyro_x_si := gyro_x * deg_to_rad
  let gyro_y_si := gyro_y * deg_to_rad
  let accel_z_si := accel_z * grav
  let m_alpha := tau / (tau + m_dt)
  let rawAngleX := rawAngleX_of grav buf i
  let rawAngleY := rawAngleY_of grav buf i
  if st.first_run then
    { previous_timestamp := ts
      first_run := false
      accelAngleX := rawAngleX
      accelAngleY := rawAngleY
      compAngleX := rawAngleX
      compAngleY := rawAngleY
      m_dt := m_dt
      m_alpha := m_alpha
      shared :=
        { m_integ_angle := 0
          m_gyro_x := gyro_x
          m_gyro_y := gyro_y
          m_gyro_z := gyro_z
          m_accel_x := accel_x
          m_accel_y := accel_y
          m_accel_z := accel_z
          m_compAngleX := rawAngleX * rad_to_deg
          m_compAngleY := rawAngleY * rad_to_deg
          m_accelAngleX := rawAngleX * rad_to_deg
          m_accelAngleY := rawAngleY * rad_to_deg } }
  else
    let accelAngleX := FormatAccelRange rawAngleX accel_z_si
    let accelAngleY := FormatAccelRange rawAngleY accel_z_si
    let compAngleX := CompFilterProcess st.compAngleX accelAngleX (-gyro_y_si) m_dt m_alpha
    let compAngleY := CompFilterProcess st.compAngleY accelAngleY gyro_x_si m_dt m_alpha
    { previous_timestamp := ts
      first_run := false
      accelAngleX := accelAngleX
      accelAngleY := accelAngleY
      compAngleX := compAngleX
      compAngleY := compAngleY
      m_dt := m_dt
      m_alpha := m_alpha
      shared :=
        { m_integ_angle := st.shared.m_integ_angle + delta_angle
          m_gyro_x := gyro_x
          m_gyro_y := gyro_y
          m_gyro_z := gyro_z
          m_accel_x := accel_x
          m_accel_y := accel_y
          m_accel_z := accel_z
          m_compAngleX := compAngleX * rad_to_deg
          m_compAngleY := compAngleY * rad_to_deg
          m_accelAngleX := accelAngleX * rad_to_deg
          m_accelAngleY := accelAngleY * rad_to_deg } }

/-- Embedding of the decode loop of line 367, iterating `stepFrame` over each
complete frame of the drained buffer. -/
noncomputable def acquireLoop (sf tau grav : ℝ) (buf : List ℕ) (d i : ℕ)
    (st : AcqState) : AcqState :=
  if _h : i < d then
    acquireLoop sf tau grav buf d (i + dataset_len) (stepFrame sf tau grav buf i st)
  else st
termination_by d - i
decreasing_by simp only [dataset_len]; omega

theorem stepFrame_first_run (sf tau grav : ℝ) (buf : List ℕ) (i : ℕ)
    (st : AcqState) : (stepFrame sf tau grav buf i st).first_run = false := by
  unfold stepFrame
  split <;> rfl

theorem stepFrame_prev (sf tau grav : ℝ) (buf : List ℕ) (i : ℕ)
    (st : AcqState) :
    (stepFrame sf tau grav buf i st).previous_timestamp = bufWord buf i := by
  unfold stepFrame
  split <;> rfl

theorem stepFrame_integ_first (sf tau grav : ℝ) (buf : List ℕ) (i : ℕ)
    (st : AcqState) (h : st.first_run = true) :
    (stepFrame sf tau grav buf i st).shared.m_integ_angle = 0 := by
  unfold stepFrame
  rw [h]
  rfl

theorem stepFrame_integ_rest (sf tau grav : ℝ) (buf : List ℕ) (i : ℕ)
    (st : AcqState) (h : st.first_run = false) :
    (stepFrame sf tau grav buf i st).shared.m_integ_angle =
      st.shared.m_integ_angle + deltaAngleOf sf buf i st.previous_timestamp := by
  unfold stepFrame
  rw [h]
  rfl

/-- C10: `Reset` zeroes the integrated angle and leaves every other
published shared field unchanged. -/
theorem claim_C10 (s : SharedState) :
    (Reset s).m_integ_angle = 0 ∧
    (Reset s).m_gyro_x = s.m_gyro_x ∧
    (Reset s).m_gyro_y = s.m_gyro_y ∧
    (Reset s).m_gyro_z = s.m_gyro_z ∧
    (Reset s).m_accel_x = s.m_accel_x ∧
    (Reset s).m_accel_y = s.m_accel_y ∧
    (Reset s).m_accel_z = s.m_accel_z ∧
    (Reset s).m_compAngleX = s.m_compAngleX ∧
    (Reset s).m_compAngleY = s.m_compAngleY ∧
    (Reset s).m_accelAngleX = s.m_accelAngleX ∧
    (Reset s).m_accelAngleY = s.m_accelAngleY :=
  ⟨rfl, rfl, rfl, rfl, rfl, rfl, rfl, rfl, rfl, rfl, rfl⟩

/-- Wrapping timestamp subtraction is plain subtraction when the previous
timestamp is not ahead and the current one fits in 32 bits. -/
theorem tsDiff_eq (ts prev : ℕ) (h1 : prev ≤ ts) (h2 : ts < 2 ^ 32) :
    tsDiff ts prev = ts - prev := by
  simp only [tsDiff]
  omega

/-- The spec's reading of the delta-angle field: big-endian signed 32-bit
join of four byte-wide buffer words (stated from the spec, for comparison
with the source's `ToInt`). -/
def beJoin32 (b0 b1 b2 b3 : ℕ) : ℤ :=
  sint 32 (b0 * 2 ^ 24 + b1 * 2 ^ 16 + b2 * 2 ^ 8 + b3)

theorem ToInt_bytes (b0 b1 b2 b3 : ℕ) (h0 : b0 < 256) (h1 : b1 < 256)
    (h2 : b2 < 256) (h3 : b3 < 256) :
    ToInt b0 b1 b2 b3 = beJoin32 b0 b1 b2 b3 := by
  have key : ∀ a b n : ℕ, b < 2 ^ n → (a * 2 ^ n) ||| b = a * 2 ^ n + b := by
    intro a b n hb
    have h := shiftLeft_lor_eq_add n a b hb
    rwa [Nat.shiftLeft_eq] at h
  unfold ToInt beJoin32
  rw [Nat.mod_eq_of_lt (show b0 < 2 ^ 32 by omega),
    Nat.mod_eq_of_lt (show b1 < 2 ^ 32 by omega),
    Nat.mod_eq_of_lt (show b2 < 2 ^ 32 by omega),
    Nat.mod_eq_of_lt (show b3 < 2 ^ 32 by omega),
    Nat.shiftLeft_eq, Nat.shiftLeft_eq, Nat.shiftLeft_eq,
    Nat.mod_eq_of_lt (show b0 * 2 ^ 24 < 2 ^ 32 by omega),
    Nat.mod_eq_of_lt (show b1 * 2 ^ 16 < 2 ^ 32 by omega),
    Nat.mod_eq_of_lt (show b2 * 2 ^ 8 < 2 ^ 32 by omega)]
  congr 1
  rw [Nat.lor_assoc, Nat.lor_assoc,
    key b2 b3 8 (by omega),
    key b1 (b2 * 2 ^ 8 + b3) 16 (by omega),
    key b0 (b1 * 2 ^ 16 + (b2 * 2 ^ 8 + b3)) 24 (by omega)]
  ring

/-- C3: the scaled delta-angle of a frame equals
`deltaAngleRaw * sf / (500 / (ts - prev))` with `deltaAngleRaw` the
big-endian signed 32-bit join of words `i+3..i+6`, and `dt` equals
`(ts - prev) / 1e6` seconds. -/
theorem claim_C3 (sf : ℝ) (buf : List ℕ) (i prev : ℕ)
    (h1 : prev ≤ bufWord buf i) (h2 : bufWord buf i < 2 ^ 32) :
    deltaAngleOf sf buf i prev =
      ((ToInt (bufWord buf (i + 3)) (bufWord buf (i + 4)) (bufWord buf (i + 5))
          (bufWord buf (i + 6)) : ℝ) * sf) /
        (500 / ((bufWord buf i - prev : ℕ) : ℝ)) ∧
    dtOf buf i prev = ((bufWord buf i - prev : ℕ) : ℝ) / 1000000 ∧
    (∀ b0 b1 b2 b3 : ℕ, b0 < 256 → b1 < 256 → b2 < 256 → b3 < 256 →
      ToInt b0 b1 b2 b3 = beJoin32 b0 b1 b2 b3) := by
  refine ⟨?_, ?_, fun b0 b1 b2 b3 u0 u1 u2 u3 => ToInt_bytes b0 b1 b2 b3 u0 u1 u2 u3⟩
  · unfold deltaAngleOf
    rw [tsDiff_eq _ _ h1 h2]
  · unfold dtOf
    rw [tsDiff_eq _ _ h1 h2]

/-- Witness for C3 at the concrete buffer `[5, 0, 0, 1, 2, 3, 4]` with
previous timestamp 3. -/
theorem claim_C3_witness :
    (3 ≤ bufWord [5, 0, 0, 1, 2, 3, 4] 0 ∧ bufWord [5, 0, 0, 1, 2, 3, 4] 0 < 2 ^ 32) ∧
    dtOf [5, 0, 0, 1, 2, 3, 4] 0 3 =
      ((bufWord [5, 0, 0, 1, 2, 3, 4] 0 - 3 : ℕ) : ℝ) / 1000000 ∧
    ToInt 1 2 3 4 = beJoin32 1 2 3 4 := by
  have h1 : 3 ≤ bufWord [5, 0, 0, 1, 2, 3, 4] 0 := by decide
  have h2 : bufWord [5, 0, 0, 1, 2, 3, 4] 0 < 2 ^ 32 := by decide
  obtain ⟨_, hB, hC⟩ := claim_C3 2 [5, 0, 0, 1, 2, 3, 4] 0 3 h1 h2
  exact ⟨⟨h1, h2⟩, hB,
    hC 1 2 3 4 (by norm_num) (by norm_num) (by norm_num) (by norm_num)⟩

/-- C2: the first frame after a (re)start forces the integrated angle to 0
and discards its own delta; each later frame adds its scaled delta-angle;
hence after two frames from a fresh start the integrated angle is exactly
frame 2's scaled delta-angle. -/
theorem claim_C2 (sf tau grav : ℝ) :
    (∀ (buf : List ℕ) (i : ℕ) (st : AcqState), st.first_run = true →
      (stepFrame sf tau grav buf i st).shared.m_integ_angle = 0) ∧
    (∀ (buf : List ℕ) (i : ℕ) (st : AcqState), st.first_run = false →
      (stepFrame sf tau grav buf i st).shared.m_integ_angle =
        st.shared.m_integ_angle + deltaAngleOf sf buf i st.previous_timestamp) ∧
    (∀ (buf : List ℕ) (s0 : AcqState), s0.first_run = true →
      buf.length = 38 →
      (acquireLoop sf tau grav buf (data_to_read buf.length) 0 s0).shared.m_integ_angle =
        deltaAngleOf sf buf 19 (bufWord buf 0)) := by
  refine ⟨fun buf i st h => stepFrame_integ_first sf tau grav buf i st h,
    fun buf i st h => stepFrame_integ_rest sf tau grav buf i st h, ?_⟩
  intro buf s0 hfr hlen
  rw [hlen]
  rw [show data_to_read 38 = 38 from rfl]
  rw [acquireLoop, dif_pos (by norm_num : (0 : ℕ) < 38)]
  rw [show (0 + dataset_len : ℕ) = 19 from rfl]
  rw [acquireLoop, dif_pos (by norm_num : (19 : ℕ) < 38)]
  rw [show (19 + dataset_len : ℕ) = 38 from rfl]
  rw [acquireLoop, dif_neg (by norm_num : ¬ (38 : ℕ) < 38)]
  rw [stepFrame_integ_rest sf tau grav buf 19 _
    (stepFrame_first_run sf tau grav buf 0 s0)]
  rw [stepFrame_integ_first sf tau grav buf 0 s0 hfr]
  rw [stepFrame_prev sf tau grav buf 0 s0]
  exact zero_add _

/-- Concrete fresh acquisition state used by witnesses. -/
noncomputable def testStateFresh : AcqState :=
  ⟨0, true, 0, 0, 0, 0, 0, 0, ⟨0, 0, 0, 0, 0, 0, 0, 0, 0, 0, 0⟩⟩

/-- Concrete post-first-frame acquisition state used by witnesses. -/
noncomputable def testStateLater : AcqState :=
  ⟨0, false, 0, 0, 0, 0, 0, 0, ⟨0, 0, 0, 0, 0, 0, 0, 0, 0, 0, 0⟩⟩

/-- Witness for C2 with concrete constants, buffer and start states. -/
theorem claim_C2_witness :
    testStateFresh.first_run = true ∧
    testStateLater.first_run = false ∧
    (List.replicate 38 0).length = 38 ∧
    (stepFrame 1 1 1 [] 0 testStateFresh).shared.m_integ_angle = 0 ∧
    (stepFrame 1 1 1 [] 0 testStateLater).shared.m_integ_angle =
      testStateLater.shared.m_integ_angle +
        deltaAngleOf 1 [] 0 testStateLater.previous_timestamp ∧
    (acquireLoop 1 1 1 (List.replicate 38 0)
        (data_to_read (List.replicate 38 0).length) 0 testStateFresh).shared.m_integ_angle =
      deltaAngleOf 1 (List.replicate 38 0) 19 (bufWord (List.replicate 38 0) 0) := by
  obtain ⟨p1, p2, p3⟩ := claim_C2 1 1 1
  exact ⟨rfl, rfl, rfl, p1 [] 0 testStateFresh rfl, p2 [] 0 testStateLater rfl,
    p3 (List.replicate 38 0) testStateFresh rfl rfl⟩

/-! ### Register transport (lines 264-295) -/

/-- Embedding of `WriteRegister` (lines 287-295): the two
(address byte, data byte) bus writes issued, in order.  The register is a
`uint8` and the value a `uint16`. -/
def WriteRegister (reg val : ℕ) : List (ℕ × ℕ) :=
  [(0x80 ||| (reg % 256), (val % 65536) &&& 0xff),
   (0x81 ||| (reg % 256), (val % 65536) >>> 8)]

theorem lor_128 : ∀ reg : ℕ, reg < 128 → 128 ||| reg = 128 + reg := by decide

theorem lor_129_even : ∀ reg : ℕ, reg < 128 → reg % 2 = 0 → 129 ||| reg = 129 + reg := by
  decide

/-- The two bus writes of `WriteRegister`, with the or-ed address bytes
resolved to plain sums (valid 16-bit registers sit at even 7-bit base
addresses). -/
theorem WriteRegister_eq (reg val : ℕ) (hreg : reg < 128) (heven : reg % 2 = 0)
    (hval : val < 65536) :
    WriteRegister reg val = [(128 + reg, val % 256), (129 + reg, val / 256)] := by
  have h255 : val &&& 255 = val % 256 := by
    have h := Nat.and_pow_two_sub_one_eq_mod val 8
    norm_num at h
    exact h
  have hshift : val >>> 8 = val / 256 := by
    have h := Nat.shiftRight_eq_div_pow val 8
    norm_num at h
    exact h
  unfold WriteRegister
  rw [Nat.mod_eq_of_lt (show reg < 256 by omega), Nat.mod_eq_of_lt hval,
    h255, hshift, lor_128 reg hreg, lor_129_even reg hreg heven]

/-- C4 fails as stated at the odd address 1: the second write's address byte
is `0x81 | 1 = 0x81`, not `0x80 | (1 + 1) = 0x82`. -/
theorem claim_C4_counterexample :
    ((WriteRegister 1 0).getD 1 (0, 0)).1 ≠ 0x80 ||| (1 + 1) := by decide

/-- C4, amended: for every even 7-bit register address (the base address of a
16-bit device register) and 16-bit value, `WriteRegister` issues exactly two
writes — the low byte at `0x80 | addr`, then the high byte at an address
byte equal to `0x80 | (addr + 1)`.  (For odd `addr` the second address byte
is `0x81 | addr` instead.) -/
theorem claim_C4 (reg val : ℕ) (hreg : reg < 128) (heven : reg % 2 = 0)
    (hval : val < 65536) :
    WriteRegister reg val =
      [(0x80 ||| reg, val % 256), (0x80 ||| (reg + 1), val / 256)] := by
  rw [WriteRegister_eq reg val hreg heven hval, lor_128 reg hreg,
    lor_128 (reg + 1) (by omega)]
  have h : 128 + (reg + 1) = 129 + reg := by omega
  rw [h]

/-- Witness for C4 at register 4, value 65535. -/
theorem claim_C4_witness :
    (4 : ℕ) < 128 ∧ (4 : ℕ) % 2 = 0 ∧ (65535 : ℕ) < 65536 ∧
    WriteRegister 4 65535 =
      [(0x80 ||| 4, 65535 % 256), (0x80 ||| (4 + 1), 65535 / 256)] :=
  ⟨by decide, by decide, by decide, claim_C4 4 65535 (by decide) (by decide) (by decide)⟩

/-- Modelled from the spec: the simulated transport of §8 — a byte store
that records the data byte of every write-flagged 2-byte message at its
7-bit address, and serves register reads per the data-model invariant of §3
(low byte at `addr`, high byte at `addr + 1`). -/
def applyBusWrite (mem : ℕ → ℕ) (a d : ℕ) : ℕ → ℕ :=
  fun x => if 128 ≤ a % 256 ∧ x = a % 128 then d % 256 else mem x

/-- `WriteRegister` against the simulated transport: apply its two bus
writes in order. -/
def WriteRegisterMem (mem : ℕ → ℕ) (reg val : ℕ) : ℕ → ℕ :=
  (WriteRegister reg val).foldl (fun m p => applyBusWrite m p.1 p.2) mem

/-- Embedding of `ReadRegister` (lines 264-273) against the simulated
transport: send the request `{addr & 0x7f, 0x00}`, read two bytes back and
big-endian join them with `ToUShort`. -/
def ReadRegisterMem (mem : ℕ → ℕ) (reg : ℕ) : ℕ :=
  ToUShort (mem (reg % 128 + 1)) (mem (reg % 128))

/-- C5: writing a 16-bit value and reading it back through the simulated
transport returns the written value, for every valid (even 7-bit base)
register address. -/
theorem claim_C5 (mem : ℕ → ℕ) (reg val : ℕ) (hreg : reg < 128)
    (heven : reg % 2 = 0) (hval : val < 65536) :
    ReadRegisterMem (WriteRegisterMem mem reg val) reg = val := by
  have hreg' : reg ≤ 126 := by omega
  rw [WriteRegisterMem, WriteRegister_eq reg val hreg heven hval]
  simp only [List.foldl]
  rw [ReadRegisterMem, Nat.mod_eq_of_lt hreg]
  unfold applyBusWrite
  have c1 : 128 ≤ (129 + reg) % 256 ∧ reg + 1 = (129 + reg) % 128 := by
    constructor <;> omega
  have c2 : ¬ (128 ≤ (129 + reg) % 256 ∧ reg = (129 + reg) % 128) := by
    rintro ⟨_, h⟩
    omega
  have c3 : 128 ≤ (128 + reg) % 256 ∧ reg = (128 + reg) % 128 := by
    constructor <;> omega
  rw [if_pos c1, if_neg c2, if_pos c3]
  rw [ToUShort]
  have hm1 : val / 256 % 256 % 256 = val / 256 := by omega
  have hm2 : val % 256 % 256 % 256 = val % 256 := by omega
  rw [hm1, hm2, shiftLeft_lor_eq_add 8 (val / 256) (val % 256) (by omega)]
  omega

/-- Witness for C5: write 48879 to register 4 of an all-zero store and read
it back. -/
theorem claim_C5_witness :
    ((4 : ℕ) < 128 ∧ (4 : ℕ) % 2 = 0 ∧ (48879 : ℕ) < 65536) ∧
    ReadRegisterMem (WriteRegisterMem (fun _ => 0) 4 48879) 4 = 48879 :=
  ⟨⟨by decide, by decide, by decide⟩,
    claim_C5 (fun _ => 0) 4 48879 (by decide) (by decide) (by decide)⟩

/-! ### Configuration round-trips (lines 217-226, 242-250) -/

/-- The yaw-axis selector. -/
inductive IMUAxis
  | kX
  | kY
  | kZ
deriving DecidableEq

/-- Transport-level operations performed by a configuration call. -/
inductive BusOp
  | switchStd
  | switchAuto
  | writeReg (reg val : ℕ)
deriving DecidableEq

/-- Modelled from the spec: the `NULL_CNFG` register address named in §4.2;
its numeric value lives in the missing header and is immaterial here. -/
def NULL_CNFG : ℕ := 0x76

/-- Embedding of `SetYawAxis` (lines 242-250): result code (0 success,
1 no change, 2 failure), resulting yaw axis, and the transport operations
performed.  `stdOk` is whether `SwitchToStandardSPI` succeeds. -/
def SetYawAxis (m_yaw_axis yaw_axis : IMUAxis) (stdOk : Bool) :
    ℕ × IMUAxis × List BusOp :=
  if m_yaw_axis = yaw_axis then (1, m_yaw_axis, [])
  else if stdOk = false then (2, m_yaw_axis, [BusOp.switchStd])
  else (0, yaw_axis, [BusOp.switchStd, BusOp.switchAuto])

/-- Embedding of `ConfigCalTime` (lines 217-226): result code, resulting
calibration time, and the transport operations performed. -/
def ConfigCalTime (m_calibration_time new_cal_time : ℕ) (stdOk : Bool) :
    ℕ × ℕ × List BusOp :=
  if m_calibration_time = new_cal_time then (1, m_calibration_time, [])
  else if stdOk = false then (2, m_calibration_time, [BusOp.switchStd])
  else (0, new_cal_time,
    [BusOp.switchStd, BusOp.writeReg NULL_CNFG (new_cal_time ||| 0x700),
     BusOp.switchAuto])

/-- C9: requesting the current configuration returns code 1 (NoChange) with
no transport operations at all (no writes, no mode switch), for both
`SetYawAxis` and `ConfigCalTime`; a differing request whose switch to
standard SPI fails returns code 2 (Failure). -/
theorem claim_C9 :
    (∀ (ax : IMUAxis) (stdOk : Bool), SetYawAxis ax ax stdOk = (1, ax, [])) ∧
    (∀ (ax req : IMUAxis), ax ≠ req → (SetYawAxis ax req false).1 = 2) ∧
    (∀ (ct : ℕ) (stdOk : Bool), ConfigCalTime ct ct stdOk = (1, ct, [])) ∧
    (∀ (ct nt : ℕ), ct ≠ nt → (ConfigCalTime ct nt false).1 = 2) := by
  refine ⟨?_, ?_, ?_, ?_⟩
  · intro ax stdOk
    simp [SetYawAxis]
  · intro ax req h
    simp [SetYawAxis, h]
  · intro ct stdOk
    simp [ConfigCalTime]
  · intro ct nt h
    simp [ConfigCalTime, h]

/-- Witness for C9 at a concrete differing axis pair and calibration pair. -/
theorem claim_C9_witness :
    (IMUAxis.kX ≠ IMUAxis.kY) ∧ (SetYawAxis IMUAxis.kX IMUAxis.kY false).1 = 2 ∧
    ((0 : ℕ) ≠ 1) ∧ (ConfigCalTime 0 1 false).1 = 2 :=
  ⟨by decide, claim_C9.2.1 IMUAxis.kX IMUAxis.kY (by decide), by decide,
    claim_C9.2.2.2 0 1 (by decide)⟩

/-! ### C8: range correction of the accelerometer tilt angles -/

/-- C8, amended: on every frame after the first, each axis's tilt angle is
passed through `FormatAccelRange` before being published and before updating
the complementary angle; on the first frame the raw `atan2` angle is
published and seeds the complementary angle with no range correction. -/
theorem claim_C8 (sf tau grav : ℝ) (buf : List ℕ) (i : ℕ) (st : AcqState) :
    (st.first_run = false →
      (stepFrame sf tau grav buf i st).shared.m_accelAngleX =
        FormatAccelRange (rawAngleX_of grav buf i) (accel_z_of buf i * grav) *
          rad_to_deg ∧
      (stepFrame sf tau grav buf i st).shared.m_accelAngleY =
        FormatAccelRange (rawAngleY_of grav buf i) (accel_z_of buf i * grav) *
          rad_to_deg ∧
      (stepFrame sf tau grav buf i st).compAngleX =
        CompFilterProcess st.compAngleX
          (FormatAccelRange (rawAngleX_of grav buf i) (accel_z_of buf i * grav))
          (-(gyro_y_of buf i * deg_to_rad)) (dtOf buf i st.previous_timestamp)
          (tau / (tau + dtOf buf i st.previous_timestamp)) ∧
      (stepFrame sf tau grav buf i st).compAngleY =
        CompFilterProcess st.compAngleY
          (FormatAccelRange (rawAngleY_of grav buf i) (accel_z_of buf i * grav))
          (gyro_x_of buf i * deg_to_rad) (dtOf buf i st.previous_timestamp)
          (tau / (tau + dtOf buf i st.previous_timestamp))) ∧
    (st.first_run = true →
      (stepFrame sf tau grav buf i st).shared.m_accelAngleX =
        rawAngleX_of grav buf i * rad_to_deg ∧
      (stepFrame sf tau grav buf i st).compAngleX = rawAngleX_of grav buf i) := by
  constructor
  · intro h
    unfold stepFrame
    rw [h]
    exact ⟨rfl, rfl, rfl, rfl⟩
  · intro h
    unfold stepFrame
    rw [h]
    exact ⟨rfl, rfl⟩

/-- Concrete auto-SPI frame for the C8 counterexample: zero timestamp,
delta-angle and gyro words; accel X raw 800 (= +1 g) and accel Z raw -800
(= -1 g). -/
def c8buf : List ℕ := [0, 0, 0, 0, 0, 0, 0, 0, 0, 0, 0, 0, 0, 3, 32, 0, 0, 252, 224]

/-- C8 fails as stated on the first frame: with accel = (+1 g, 0, -1 g) the
raw tilt angle π/4 is published unchanged, but the range-corrected angle
would be 3π/4. -/
theorem claim_C8_counterexample :
    (stepFrame 1 1 (981 / 100) c8buf 0 testStateFresh).shared.m_accelAngleX ≠
      FormatAccelRange (rawAngleX_of (981 / 100) c8buf 0)
        (accel_z_of c8buf 0 * (981 / 100)) * rad_to_deg := by
  have hx : accel_x_of c8buf 0 = 1 := by
    unfold accel_x_of
    rw [show bufWord c8buf 13 = 3 from rfl, show bufWord c8buf 14 = 32 from rfl,
      show BuffToShort 3 32 = 800 from by decide]
    norm_num
  have hy : accel_y_of c8buf 0 = 0 := by
    unfold accel_y_of
    rw [show bufWord c8buf 15 = 0 from rfl, show bufWord c8buf 16 = 0 from rfl,
      show BuffToShort 0 0 = 0 from by decide]
    norm_num
  have hz : accel_z_of c8buf 0 = -1 := by
    unfold accel_z_of
    rw [show bufWord c8buf 17 = 252 from rfl, show bufWord c8buf 18 = 224 from rfl,
      show BuffToShort 252 224 = -800 from by decide]
    norm_num
  have hg : (0 : ℝ) < 981 / 100 := by norm_num
  have hraw : rawAngleX_of (981 / 100) c8buf 0 = Real.pi / 4 := by
    unfold rawAngleX_of
    rw [hx, hy, hz]
    have hsq : (0 : ℝ) * (981 / 100) * (0 * (981 / 100)) +
        (-1) * (981 / 100) * ((-1) * (981 / 100)) = 981 / 100 * (981 / 100) := by
      ring
    rw [hsq, Real.sqrt_mul_self (le_of_lt hg), one_mul]
    unfold atan2
    rw [if_pos hg, div_self (ne_of_gt hg)]
    exact Real.arctan_one
  have hleft : (stepFrame 1 1 (981 / 100) c8buf 0 testStateFresh).shared.m_accelAngleX =
      rawAngleX_of (981 / 100) c8buf 0 * rad_to_deg := by
    unfold stepFrame
    rw [show testStateFresh.first_run = true from rfl]
    rfl
  have hright : FormatAccelRange (rawAngleX_of (981 / 100) c8buf 0)
      (accel_z_of c8buf 0 * (981 / 100)) = 3 * Real.pi / 4 := by
    rw [hraw, hz]
    unfold FormatAccelRange
    rw [if_pos (by norm_num : (-1 : ℝ) * (981 / 100) < 0)]
    ring
  rw [hleft, hright, hraw]
  unfold rad_to_deg
  intro heq
  have hpi := Real.pi_pos
  have h2 : (180 : ℝ) / Real.pi ≠ 0 := ne_of_gt (div_pos (by norm_num) hpi)
  have h3 := mul_right_cancel₀ h2 heq
  linarith

/-- Witness for C8 (amended) on a post-first-run state. -/
theorem claim_C8_witness :
    testStateLater.first_run = false ∧
    (stepFrame 1 1 1 [] 0 testStateLater).shared.m_accelAngleX =
      FormatAccelRange (rawAngleX_of 1 [] 0) (accel_z_of [] 0 * 1) * rad_to_deg :=
  ⟨rfl, ((claim_C8 1 1 1 [] 0 testStateLater).1 rfl).1⟩

end ADIS16470
